import Mathlib

/-!
# Verification of dispatchwrapparr (dispatchDuck repository)

Shallow embedding, in Lean 4, of the decision pipeline of
`src/dispatchwrapparr.py`:

* the key normalizer `MPEGDASHDRM._process_keys`,
* the mux command rebuild of `FFMPEGMuxerDRM.__init__` / `_get_keys`,
* the representation selection of `DASHStreamDRM.parse_manifest`,
* the proxy bypass resolver `proxy_bypass_req`,
* the stream variant detector `check_stream_variant`,
* the fragment / CLI flag resolution and mux decision of `main`,
* the CLI validation of `parse_args`.

Python strings are modelled as `String`/`List Char`, the relevant pieces
of the Python standard library (`base64.urlsafe_b64decode`, `int(s, 16)`,
`str.split`, `fnmatch.fnmatch`, `urllib.parse.urlparse`) are modelled as
total Lean functions on those, faithful to CPython semantics on the
inputs this program feeds them (ASCII command-line data).  Exceptions are
modelled with `Except`/`Option`.
-/

/-! ## Character and string helpers (models of Python str primitives) -/

/-- The characters Python's `str.strip()` removes for ASCII input
(the ASCII whitespace characters). -/
def isPySpace (c : Char) : Bool :=
  c = ' ' || c = '\t' || c = '\n' || c = '\x0d' || c = '\x0b' || c = '\x0c'

/-- A hexadecimal digit as accepted by Python `int(_, 16)`. -/
def isHexDigitPy (c : Char) : Bool :=
  ('0' ≤ c && c ≤ '9') || ('a' ≤ c && c ≤ 'f') || ('A' ≤ c && c ≤ 'F')

/-- Model of Python `s.split(sep)` for a one-character separator:
splits on every occurrence, so `"::".split(":") = ["", "", ""]`. -/
def pySplitChar (sep : Char) : List Char → List (List Char)
  | [] => [[]]
  | c :: cs =>
    let rest := pySplitChar sep cs
    if c = sep then [] :: rest
    else
      match rest with
      | [] => [[c]]
      | r :: rs => (c :: r) :: rs

/-- Strip ASCII whitespace from both ends (model of `str.strip()`). -/
def pyStrip (cs : List Char) : List Char :=
  ((cs.dropWhile isPySpace).reverse.dropWhile isPySpace).reverse

/-! ## Model of `int(s, 16)` success (CPython base-16 literal grammar)

CPython `int(s, 16)` strips surrounding whitespace, accepts one optional
sign, an optional `0x`/`0X` prefix (optionally followed by a single
underscore), and then hexadecimal digits with single underscores allowed
between digits.  We only need *whether* parsing succeeds. -/

/-- After the first digit: digits with single underscores between digits. -/
def hexRest : List Char → Bool
  | [] => true
  | c :: cs =>
    if c = '_' then
      match cs with
      | [] => false
      | d :: cs2 => isHexDigitPy d && hexRest cs2
    else isHexDigitPy c && hexRest cs

/-- A nonempty run of hex digits with single embedded underscores,
starting with a digit. -/
def hexRun : List Char → Bool
  | [] => false
  | c :: cs => isHexDigitPy c && hexRest cs

/-- The digit part, allowing one underscore directly after a `0x` prefix. -/
def hexDigitsAfterPrefix (cs : List Char) : Bool :=
  match cs with
  | c :: rest => if c = '_' then hexRun rest else hexRun cs
  | [] => false

/-- Drop an optional leading `+` or `-` sign. -/
def stripSign (cs : List Char) : List Char :=
  match cs with
  | c :: rest => if c = '+' || c = '-' then rest else c :: rest
  | [] => []

/-- Drop an optional `0x` / `0X` prefix. -/
def dropHexPrefix (cs : List Char) : Option (List Char) :=
  match cs with
  | c0 :: c1 :: rest => if c0 = '0' && (c1 = 'x' || c1 = 'X') then some rest else none
  | _ => none

/-- Does CPython `int(s, 16)` succeed on `s`? -/
def pyInt16Ok (s : String) : Bool :=
  match dropHexPrefix (stripSign (pyStrip s.toList)) with
  | some rest => hexDigitsAfterPrefix rest
  | none => hexRun (stripSign (pyStrip s.toList))

/-- 32 characters, all hexadecimal digits: a "valid 32-hex-character key". -/
def isHex32 (s : String) : Bool :=
  s.length = 32 && s.toList.all isHexDigitPy

/-! ## Model of `base64.urlsafe_b64decode` (CPython, non-strict mode)

`urlsafe_b64decode` translates `-`/`_` to `+`/`/` and calls
`binascii.a2b_base64(_, strict_mode=False)`.  In non-strict mode invalid
characters are skipped, a quad completed by padding terminates decoding,
and leftover data characters at the end raise `binascii.Error`
(modelled as `none`). -/

/-- Value of a base64 character, with both the standard and the URL-safe
alphabet accepted (as `urlsafe_b64decode` does after translation). -/
def b64charVal (c : Char) : Option Nat :=
  if 'A' ≤ c && c ≤ 'Z' then some (c.toNat - 65)
  else if 'a' ≤ c && c ≤ 'z' then some (c.toNat - 97 + 26)
  else if '0' ≤ c && c ≤ '9' then some (c.toNat - 48 + 52)
  else if c = '+' || c = '-' then some 62
  else if c = '/' || c = '_' then some 63
  else none

/-- The state machine of CPython `binascii.a2b_base64` (non-strict):
`quad` is the position inside the current quad (0–3), `left` the pending
bits, `pads` the count of pad characters seen since the last data
character.  Returns `none` exactly when CPython raises `binascii.Error`. -/
def a2bBase64Aux : List Char → Nat → Nat → Nat → Option (List Nat)
  | [], quad, _, _ => if quad = 0 then some [] else none
  | c :: cs, quad, left, pads =>
    if c = '=' then
      if quad ≥ 2 && quad + (pads + 1) ≥ 4 then
        some []
      else
        a2bBase64Aux cs quad left (pads + 1)
    else
      match b64charVal c with
      | none => a2bBase64Aux cs quad left pads
      | some v =>
        match quad with
        | 0 => a2bBase64Aux cs 1 v 0
        | 1 => (a2bBase64Aux cs 2 (v % 16) 0).map (fun bs => (left * 4 + v / 16) :: bs)
        | 2 => (a2bBase64Aux cs 3 (v % 4) 0).map (fun bs => (left * 16 + v / 4) :: bs)
        | _ => (a2bBase64Aux cs 0 0 0).map (fun bs => (left * 64 + v) :: bs)

/-- Model of `base64.urlsafe_b64decode(s)`: the byte values, or `none`
when `binascii.Error` is raised. -/
def urlsafeB64Decode (s : String) : Option (List Nat) :=
  a2bBase64Aux s.toList 0 0 0

/-- One byte to two lowercase hexadecimal characters, as `bytes.hex()`. -/
def byteToHexChars (b : Nat) : List Char :=
  [Nat.digitChar (b / 16 % 16), Nat.digitChar (b % 16)]

/-- Model of `bytes.hex()`: lowercase hexadecimal string of a byte list. -/
def bytesToHex (bs : List Nat) : String :=
  String.mk (bs.flatMap byteToHexChars)

/-! ## `MPEGDASHDRM._process_keys` (src/dispatchwrapparr.py lines 104–134) -/

/-- Errors `_process_keys` can surface: `FatalPluginError` with its fixed
message (the spec's `InvalidKeyFormatError`), or an uncaught
`binascii.Error` escaping `base64.urlsafe_b64decode`. -/
inductive KeyErr where
  | fatalPlugin (msg : String)
  | binasciiError
  deriving DecidableEq, Repr

/-- Message of the `FatalPluginError` raised when the candidate has 32
characters but `int(_, 16)` fails (line 130). -/
def invalidHexMsg : String :=
  "Expecting 128bit key in 32 hex digits, but the key contains invalid hex."

/-- Message of the `FatalPluginError` raised when the candidate does not
have 32 characters (line 132). -/
def wrongLenMsg : String :=
  "Expecting 128bit key in 32 hex digits."

/-- `key = k.split(':'); key[-1]`: the candidate key is the substring
after the last colon. -/
def candidateOf (k : String) : String :=
  String.mk ((pySplitChar ':' k.toList).getLastD [])

/-- `"=" * (4 - len % 4)` padding appended before base64 decoding
(lines 118–119). -/
def padB64 (cand : String) : String :=
  cand ++ String.mk (List.replicate (4 - cand.length % 4) '=')

/-- The candidate after the optional base64 decode step (lines 113–124):
`none` when `urlsafe_b64decode` raises; when the decode yields an empty
byte string the original candidate is kept (`if b64_key:` line 121). -/
def keyFinalForm (k : String) : Option String :=
  let cand := candidateOf k
  if cand.length = 21 || cand.length = 22 || cand.length = 23 || cand.length = 24 then
    match urlsafeB64Decode (padB64 cand) with
    | none => none
    | some bs =>
      let h := bytesToHex bs
      some (if h = "" then cand else h)
  else
    some cand

/-- The body of the `for k in keys:` loop (lines 109–133) for one entry:
decode step, then the 32-character and hexadecimal validity checks. -/
def processKeyEntry (k : String) : Except KeyErr String :=
  match keyFinalForm k with
  | none => .error .binasciiError
  | some f =>
    if f.length = 32 then
      if pyInt16Ok f then .ok f else .error (.fatalPlugin invalidHexMsg)
    else
      .error (.fatalPlugin wrongLenMsg)

/-- `MPEGDASHDRM._process_keys`: every entry is processed in order and
appended to the result; the first failing entry raises. -/
def processKeys : List String → Except KeyErr (List String)
  | [] => .ok []
  | k :: ks => do
    let r ← processKeyEntry k
    let rest ← processKeys ks
    return r :: rest

/-! ## `FFMPEGMuxerDRM` (src/dispatchwrapparr.py lines 137–199) -/

/-- Model of `s.startswith(p)` via character lists. -/
def pyStartsWith (s p : String) : Bool :=
  p.toList.isPrefixOf s.toList

/-- Model of `s.endswith(p)` via character lists. -/
def pyEndsWith (s p : String) : Bool :=
  p.toList.isSuffixOf s.toList

/-- Model of `s.lower()` for ASCII strings. -/
def pyLower (s : String) : String :=
  String.mk (s.toList.map Char.toLower)

/-- `FFMPEGMuxerDRM._get_keys` (lines 153–163): the session's
`decryption-key` option; a single key is doubled so that it is also used
for all remaining streams. -/
def getKeysOpt (decryptionKey : List String) : List String :=
  if decryptionKey.isEmpty then []
  else if decryptionKey.length = 1 then decryptionKey ++ decryptionKey
  else decryptionKey

/-- The six arguments spliced in front of every `-i` input when keys are
present (lines 179–182). -/
def keyInsertion (k : String) : List String :=
  ["-re", "-readrate_initial_burst", "6", "-decryption_key", k, "-copyts"]

/-- The `while len(old_cmd) > 0` rewrite loop of `FFMPEGMuxerDRM.__init__`
(lines 175–194).  `none` models an uncaught `IndexError` from
`old_cmd.pop(0)` on an exhausted list or from `keys[key]` out of range. -/
def rebuildLoop (keys : List String) (subtitles : Bool) :
    Nat → List String → Option (List String)
  | _, [] => some []
  | keyIdx, cmd :: rest =>
    if !keys.isEmpty && cmd == "-i" then
      match rest with
      | [] => none
      | inp :: rest2 =>
        match keys.get? keyIdx with
        | none => none
        | some kv =>
          let nextIdx := if keyIdx + 1 = keys.length then 1 else keyIdx + 1
          (rebuildLoop keys subtitles nextIdx rest2).map
            (fun tail => keyInsertion kv ++ [cmd, inp] ++ tail)
    else if subtitles && cmd == "-c:a" then
      match rest with
      | [] => none
      | a :: rest2 =>
        (rebuildLoop keys subtitles keyIdx rest2).map
          (fun tail => [cmd, a, "-c:s", "copy"] ++ tail)
    else
      (rebuildLoop keys subtitles keyIdx rest).map (fun tail => cmd :: tail)

/-- Full command rewrite of `FFMPEGMuxerDRM.__init__`: the rewrite loop
followed by the final-output step that inserts `-mpegts_copyts 1` before
a trailing pipe or bare filename (lines 195–198). -/
def rebuildCmd (keys : List String) (subtitles : Bool) (oldCmd : List String) :
    Option (List String) :=
  (rebuildLoop keys subtitles 0 oldCmd).map (fun cmd =>
    match cmd.getLast? with
    | none => cmd
    | some last =>
      if pyStartsWith last "pipe:" || !pyStartsWith last "-" then
        cmd.dropLast ++ ["-mpegts_copyts", "1", last]
      else cmd)

/-! ## Manifest data model and `DASHStreamDRM.parse_manifest`
(src/dispatchwrapparr.py lines 352–523)

`Representation`, `AdaptationSet` and `Period` model the streamlink
manifest objects this code consumes: only the attributes read by
`parse_manifest` are retained.  `bandwidth` is in kbit/s (streamlink
parses the `bandwidth` attribute divided by 1000) and is modelled as a
whole number. -/

structure SRep where
  mimeType : String
  contentProtections : Bool
  height : Option Nat
  bandwidth : Nat
  lang : Option String
  deriving DecidableEq, Repr

structure AdaptationSet where
  contentProtections : Bool
  representations : List SRep
  deriving DecidableEq, Repr

structure Period where
  adaptationSets : List AdaptationSet
  deriving DecidableEq, Repr

/-- The slice of streamlink session options read by the selection code. -/
structure SessionOpts where
  decryptionKey : List String
  useSubtitles : Bool
  localeExplicit : Bool
  localeLanguage : String
  deriving DecidableEq, Repr

/-- Errors raised by the selection code: `PluginError` for the DRM
precondition (the spec's `DrmKeyRequiredError`). -/
inductive PErr where
  | drmKeyRequired
  deriving DecidableEq, Repr

/-- The stream object built for each (video, audio) pair: it stores the
video representation and the audio and subtitle buckets passed to
`DASHStreamDRM.__init__` (lines 356–373, 487). -/
structure DStreamDRM where
  video : Option SRep
  audio_representations : List (Option SRep)
  subtitles_representations : List (Option SRep)
  deriving DecidableEq, Repr

/-- Number of decimal digits of a natural number (1 for 0). -/
def digits10 (n : Nat) : Nat :=
  (Nat.toDigits 10 n).length

/-- Round `b` to a multiple of `m > 0`, ties to even, as Python `round`
on exactly-representable values. -/
def roundHalfEven (b m : Nat) : Nat :=
  let q := b / m
  let r := b % m
  if 2 * r < m then q * m
  else if 2 * r > m then (q + 1) * m
  else if q % 2 = 0 then q * m else (q + 1) * m

/-- Model of streamlink's `Representation.bandwidth_rounded`
(`round(bandwidth, 1 - int(math.log10(bandwidth)))`, i.e. rounding the
kbit/s value to two significant digits). -/
def bandwidthRounded (b : Nat) : Nat :=
  if b < 100 then b else roundHalfEven b (10 ^ (digits10 b - 2))

/-- The f-string of line 491:
`f"{vid.height or vid.bandwidth_rounded:0.0f}{'p' if vid.height else 'k'}"`. -/
def repName (v : SRep) : String :=
  match v.height with
  | some h =>
    if h = 0 then toString (bandwidthRounded v.bandwidth) ++ "k"
    else toString h ++ "p"
  | none => toString (bandwidthRounded v.bandwidth) ++ "k"

/-- `"+".join(stream_name)` for the one-element or empty name list built
at lines 488–491. -/
def streamBaseName (v? : Option SRep) : String :=
  match v? with
  | some v => repName v
  | none => ""

/-- The `for rep in aset.representations` loop (lines 436–448): raise on
a protected representation without keys, else partition by MIME type. -/
def scanReps (keyGiven useSubs : Bool) :
    List SRep → List (Option SRep) → List (Option SRep) → List (Option SRep) →
    Except PErr (List (Option SRep) × List (Option SRep) × List (Option SRep))
  | [], v, a, s => .ok (v, a, s)
  | rep :: rest, v, a, s =>
    if rep.contentProtections && !keyGiven then .error .drmKeyRequired
    else if pyStartsWith rep.mimeType "video" then
      scanReps keyGiven useSubs rest (v ++ [some rep]) a s
    else if pyStartsWith rep.mimeType "audio" then
      scanReps keyGiven useSubs rest v (a ++ [some rep]) s
    else if useSubs && pyStartsWith rep.mimeType "application" then
      scanReps keyGiven useSubs rest v a (s ++ [some rep])
    else
      scanReps keyGiven useSubs rest v a s

/-- The `for aset in period_selection.adaptationSets` loop (lines
430–448): raise on a protected adaptation set without keys, then scan
its representations. -/
def scanASets (opts : SessionOpts) :
    List AdaptationSet → List (Option SRep) → List (Option SRep) → List (Option SRep) →
    Except PErr (List (Option SRep) × List (Option SRep) × List (Option SRep))
  | [], v, a, s => .ok (v, a, s)
  | aset :: rest, v, a, s =>
    if aset.contentProtections && opts.decryptionKey.isEmpty then .error .drmKeyRequired
    else
      match scanReps (!opts.decryptionKey.isEmpty) opts.useSubtitles
          aset.representations v a s with
      | .error e => .error e
      | .ok (v, a, s) => scanASets opts rest v a s

/-- `if not bucket: bucket.append(None)` (lines 450–455). -/
def withPlaceholder (l : List (Option SRep)) : List (Option SRep) :=
  if l.isEmpty then l ++ [none] else l

/-- Bucket construction for the selected period (lines 412–455),
including the `with_video_only` / `with_audio_only` seeds. -/
def selBuckets (opts : SessionOpts) (wvo wao : Bool) (period : Period) :
    Except PErr (List (Option SRep) × List (Option SRep) × List (Option SRep)) :=
  let v0 : List (Option SRep) := if wao then [none] else []
  let a0 : List (Option SRep) := if wvo then [none] else []
  let s0 : List (Option SRep) := if wao then [none] else []
  match scanASets opts period.adaptationSets v0 a0 s0 with
  | .error e => .error e
  | .ok (v, a, s) => .ok (withPlaceholder v, withPlaceholder a, withPlaceholder s)

/-- The set of languages of the audio bucket (lines 460–465); a Python
`set`, modelled as a deduplicated list (only its size is consumed). -/
def availableLanguages (audio : List (Option SRep)) : List String :=
  audio.foldl (fun acc a? =>
    match a? with
    | some a =>
      match a.lang with
      | some l =>
        if l = "" then acc
        else if acc.contains l then acc else acc ++ [l]
      | none => acc
    | none => acc) []

/-- The locale-matched language (lines 466–468).  `Language.get` equality
on the streamlink side is modelled as tag equality. -/
def explicitLang (opts : SessionOpts) (audio : List (Option SRep)) : Option String :=
  audio.foldl (fun cur a? =>
    match a? with
    | some a =>
      match a.lang with
      | some l =>
        if l ≠ "" && opts.localeExplicit && l == opts.localeLanguage then some l
        else cur
      | none => cur
    | none => cur) none

/-- The working language (lines 466–472): the explicit locale match if
any, else the first audio entry's language. -/
def workingLang (opts : SessionOpts) (audio : List (Option SRep)) : Option String :=
  match explicitLang opts audio with
  | some l => some l
  | none =>
    match audio with
    | x :: _ =>
      match x with
      | some a => a.lang
      | none => none
    | [] => none

/-- The language filter (lines 479–480), applied only when more than one
distinct language is available. -/
def filterAudio (audio : List (Option SRep)) (lang : Option String) (nLangs : Nat) :
    List (Option SRep) :=
  if nLangs > 1 then
    audio.filter (fun a? =>
      match a? with
      | some a => a.lang.isNone || a.lang == lang
      | none => false)
  else audio

/-- The audio bucket actually used for pairing and kept on each stream:
the bucket after the working-language filter. -/
def audioFilteredOf (opts : SessionOpts) (audio : List (Option SRep)) :
    List (Option SRep) :=
  filterAudio audio (workingLang opts audio) (availableLanguages audio).length

/-- `itertools.product` order: all second components for each first. -/
def listProd (l1 : List α) (l2 : List β) : List (α × β) :=
  l1.flatMap (fun a => l2.map (fun b => (a, b)))

/-- The `for vid, aud in itertools.product(video, audio)` loop (lines
482–492): skip the (None, None) pair, build a stream carrying the
(filtered) audio bucket and the subtitle bucket, and name it from the
video side. -/
def buildRet (video audio subs : List (Option SRep)) : List (String × DStreamDRM) :=
  (listProd video audio).filterMap (fun p =>
    if p.1.isNone && p.2.isNone then none
    else some (streamBaseName p.1,
      { video := p.1
        audio_representations := audio
        subtitles_representations := subs }))

/-- Append `v` to the group keyed `k`, creating it at the end if absent
(`defaultdict(list)` insertion order, lines 495–497). -/
def addToGroups (k : String) (v : DStreamDRM) :
    List (String × List DStreamDRM) → List (String × List DStreamDRM)
  | [] => [(k, [v])]
  | (k2, vs) :: gs =>
    if k2 = k then (k2, vs ++ [v]) :: gs
    else (k2, vs) :: addToGroups k v gs

/-- `dict_value_list` (lines 495–497): group the named streams by name,
keys in first-occurrence order, values in insertion order. -/
def groupByName (l : List (String × DStreamDRM)) : List (String × List DStreamDRM) :=
  l.foldl (fun gs p => addToGroups p.1 p.2 gs) []

/-- `sortby_bandwidth` (lines 499–502). -/
def sortbyBandwidth (s : DStreamDRM) : Nat :=
  match s.video with
  | some v => v.bandwidth
  | none => 0

/-- Insert into a descending-sorted list, after any earlier element of
equal key (so the overall sort is stable, like Python `sorted`). -/
def insertDesc (x : DStreamDRM) : List DStreamDRM → List DStreamDRM
  | [] => [x]
  | y :: ys =>
    if sortbyBandwidth y ≤ sortbyBandwidth x then x :: y :: ys
    else y :: insertDesc x ys

/-- Stable descending sort by video bandwidth, the extensional behavior
of `sorted(items, key=sortby_bandwidth, reverse=True)` (line 509). -/
def sortDesc : List DStreamDRM → List DStreamDRM
  | [] => []
  | x :: xs => insertDesc x (sortDesc xs)

/-- The suffix scheme of lines 511–517: `q`, `q_alt`, `q_alt2`, …. -/
def suffixName (q : String) (n : Nat) : String :=
  if n = 0 then q
  else if n = 1 then q ++ "_alt"
  else q ++ "_alt" ++ toString n

/-- Assign suffixed names positionally, starting at index `n`. -/
def renameFrom (q : String) (n : Nat) : List DStreamDRM → List (String × DStreamDRM)
  | [] => []
  | s :: ss => (suffixName q n, s) :: renameFrom q (n + 1) ss

/-- One name group: sort by descending bandwidth, then assign `q`,
`q_alt`, `q_alt2`, … (lines 505–517). -/
def renameGroup (q : String) (items : List DStreamDRM) : List (String × DStreamDRM) :=
  renameFrom q 0 (sortDesc items)

/-- Insertion into the `ret_new` dict: replace an existing key in place,
else append. -/
def dictInsert (gs : List (String × DStreamDRM)) (k : String) (v : DStreamDRM) :
    List (String × DStreamDRM) :=
  match gs with
  | [] => [(k, v)]
  | (k2, v2) :: rest =>
    if k2 = k then (k2, v) :: rest
    else (k2, v2) :: dictInsert rest k v

/-- Fold a list of named streams into the `ret_new` dict. -/
def dictInsertList (gs : List (String × DStreamDRM)) (ps : List (String × DStreamDRM)) :
    List (String × DStreamDRM) :=
  ps.foldl (fun acc p => dictInsert acc p.1 p.2) gs

/-- `ret_new` (lines 504–517): every group renamed and inserted in order. -/
def renameAll (groups : List (String × List DStreamDRM)) : List (String × DStreamDRM) :=
  groups.foldl (fun acc g => dictInsertList acc (renameGroup g.1 g.2)) []

/-- The selection pipeline of `DASHStreamDRM.parse_manifest` after the
manifest fetch (lines 412–523), as a mapping from variant names to
streams (an ordered association list models the returned dict). -/
def parseManifestSel (opts : SessionOpts) (wvo wao : Bool) (period : Period) :
    Except PErr (List (String × DStreamDRM)) :=
  match selBuckets opts wvo wao period with
  | .error e => .error e
  | .ok (v, a, s) =>
    .ok (renameAll (groupByName (buildRet v (audioFilteredOf opts a) s)))

/-! ## `proxy_bypass_req` (src/dispatchwrapparr.py lines 634–673)

Network I/O is abstracted by an oracle `http : String → Except Unit
HttpResp` giving, per URL, either the response of the direct
`requests.get` (status and optional `Location` header) or a raised
exception.  The `while True` loop is given fuel; the outer `none` marks
fuel exhaustion (a diverging redirect chain), which no claim touches. -/

structure HttpResp where
  status : Nat
  location : Option String
  deriving DecidableEq, Repr

/-- Skip to just after the first `://`. -/
def afterSchemeSep : List Char → Option (List Char)
  | ':' :: '/' :: '/' :: rest => some rest
  | _ :: cs => afterSchemeSep cs
  | [] => none

/-- Model of `urlparse(url).hostname` for absolute URLs with a scheme:
the authority up to the first `/`, `?` or `#`, userinfo and port
stripped, lowercased; `none` when empty or no scheme is present. -/
def urlHostname (url : String) : Option String :=
  match afterSchemeSep url.toList with
  | none => none
  | some rest =>
    let netloc := rest.takeWhile (fun c => !(c = '/' || c = '?' || c = '#'))
    let afterAt := (pySplitChar '@' netloc).getLastD []
    let host := (afterAt.takeWhile (fun c => c ≠ ':')).map Char.toLower
    if host.isEmpty then none else some (String.mk host)

/-- Glob matching with explicit fuel (every step strictly decreases
`p.length + s.length`, so `p.length + s.length + 1` steps always
suffice). -/
def globMatchAux : Nat → List Char → List Char → Bool
  | 0, _, _ => false
  | fuel + 1, p, s =>
    match p, s with
    | [], [] => true
    | '*' :: ps, [] => globMatchAux fuel ps []
    | _ :: _, [] => false
    | [], _ :: _ => false
    | pc :: ps, c :: cs =>
      if pc = '*' then globMatchAux fuel ps (c :: cs) || globMatchAux fuel (pc :: ps) cs
      else (pc = '?' || pc = c) && globMatchAux fuel ps cs

/-- Model of `fnmatch.fnmatch` on POSIX for patterns built from literal
characters, `*` and `?` (the pattern forms the bypass lists use). -/
def globMatch (p : List Char) (s : List Char) : Bool :=
  globMatchAux (p.length + s.length + 1) p s

/-- `[pattern.strip() for pattern in bypasslist.split(",")]` (line 643). -/
def bypassPatterns (bypasslist : String) : List String :=
  (pySplitChar ',' bypasslist.toList).map (fun p => String.mk (pyStrip p))

/-- `any(fnmatch.fnmatch(hostname, pat) for pat in bypass_patterns)`. -/
def hostMatchesAny (host : String) (pats : List String) : Bool :=
  pats.any (fun p => globMatch p.toList host.toList)

/-- The `while True` redirect loop (lines 653–670) plus the surrounding
`except` (line 671).  Returns `some r` where `r` is the Python return
value (`none` modelling Python `None`); note that a redirect status with
no `Location` header `break`s out of the loop and falls off the end of
the `try` block, returning Python `None`. -/
def proxyBypassLoop (http : String → Except Unit HttpResp) (pats : List String) :
    Nat → String → Option (Option String)
  | 0, _ => none
  | fuel + 1, url =>
    match http url with
    | .error _ => some (some url)
    | .ok resp =>
      if resp.status = 200 then some none
      else if resp.status = 301 || resp.status = 302 then
        match resp.location with
        | none => some none
        | some loc =>
          match urlHostname loc with
          | some nh =>
            if hostMatchesAny nh pats then proxyBypassLoop http pats fuel loc
            else some (some loc)
          | none => some (some loc)
      else some (some url)

/-- `proxy_bypass_req` (lines 634–673): the hostname pre-check followed
by the redirect loop. -/
def proxyBypassReq (http : String → Except Unit HttpResp) (url bypasslist : String)
    (fuel : Nat) : Option (Option String) :=
  let pats := bypassPatterns bypasslist
  match urlHostname url with
  | none => some (some url)
  | some h =>
    if !hostMatchesAny h pats then some (some url)
    else proxyBypassLoop http pats fuel url

/-! ## `check_stream_variant` (src/dispatchwrapparr.py lines 859–925)

The stream object is modelled by its class and the attributes the
detector reads.  streamlink's `HLSStream` subclasses `HTTPStream`, so an
HLS stream that does not classify by codecs falls through to the
`isinstance(stream, HTTPStream)` branch.  The Content-Type probe is an
oracle: `none` when no session was passed, `some (.error ())` when the
GET raises, `some (.ok ct)` for a response with Content-Type `ct`. -/

structure HLSPlaylist where
  uri : String
  codecs : List String
  deriving DecidableEq, Repr

structure Multivariant where
  playlists : List HLSPlaylist
  deriving DecidableEq, Repr

inductive StreamK where
  | hls (url : String) (multivariant : Option Multivariant)
  | http (url : String)
  | nonHttp
  deriving DecidableEq, Repr

/-- The audio file extensions of line 902. -/
def audioExts : List String := [".aac", ".m4a", ".mp3", ".ogg"]

/-- The container extensions of line 905. -/
def containerExts : List String := [".mp4", ".mkv", ".webm", ".mov"]

/-- The `isinstance(stream, HTTPStream)` branch (lines 898–922):
extension fast path, then the Content-Type probe, any probe failure or
unrecognized type giving 0. -/
def httpBranch (url : String) (probe : Option (Except Unit String)) : Nat :=
  if audioExts.any (fun e => pyEndsWith (pyLower url) e) then 1
  else if containerExts.any (fun e => pyEndsWith (pyLower url) e) then 0
  else
    match probe with
    | none => 0
    | some (.error _) => 0
    | some (.ok ct) =>
      if pyStartsWith (pyLower ct) "audio/" then 1
      else if pyStartsWith (pyLower ct) "video/" then 0
      else 0

/-- A video codec family of line 884 (`avc`, `hev`, `vp` families). -/
def hlsVideoCodec (c : String) : Bool :=
  pyStartsWith c "avc" || pyStartsWith c "hev" || pyStartsWith c "vp"

/-- An audio codec family of line 885 (`mp4a`, `aac`). -/
def hlsAudioCodec (c : String) : Bool :=
  pyStartsWith c "mp4a" || pyStartsWith c "aac"

/-- Codec classification of the selected HLS playlist (lines 881–895). -/
def hlsCodecsClassify (codecs : List String) : Nat :=
  if codecs.any hlsAudioCodec && !codecs.any hlsVideoCodec then 1
  else if codecs.any hlsVideoCodec && !codecs.any hlsAudioCodec then 2
  else 0

/-- `check_stream_variant` (lines 859–925): 0 = normal, 1 = audio only,
2 = video only. -/
def checkStreamVariant (stream : StreamK) (probe : Option (Except Unit String)) : Nat :=
  match stream with
  | .hls url mv? =>
    match mv? with
    | some mv =>
      match mv.playlists.find? (fun p => p.uri == url) with
      | some pl => hlsCodecsClassify pl.codecs
      | none => httpBranch url probe
    | none => httpBranch url probe
  | .http url => httpBranch url probe
  | .nonHttp => 0

/-! ## `main`: fragment handling, flag resolution and the mux decision
(src/dispatchwrapparr.py lines 961–1154) and `parse_args` validation
(lines 588–599) -/

/-- Python truthiness of an `Optional[bool]` variable. -/
def pyTruthy (o : Option Bool) : Bool := o == some true

/-- The stream after the synthetic-track decision: unchanged, or muxed
with a silent audio / blank video track. -/
inductive MuxedOut (α : Type) where
  | plain (s : α)
  | withSilentAudio (s : α)
  | withBlankVideo (s : α)
  deriving DecidableEq, Repr

/-- The mux decision of lines 1141–1154 on the selected stream: the
resulting stream and whether the both-flags warning was logged. -/
def muxStep (noaudio novideo : Option Bool) (stream : α) : MuxedOut α × Bool :=
  if pyTruthy noaudio && !pyTruthy novideo then (.withSilentAudio stream, false)
  else if !pyTruthy noaudio && pyTruthy novideo then (.withBlankVideo stream, false)
  else if pyTruthy noaudio && pyTruthy novideo then (.plain stream, true)
  else (.plain stream, false)

/-- Model of `urllib.parse.parse_qs` on a fragment for plain (already
unquoted) `k=v&k2=v2` data: pairs with an `=` and a nonempty value, the
value being everything after the first `=`. -/
def parseQsPairs (frag : List Char) : List (String × String) :=
  (pySplitChar '&' frag).filterMap (fun part =>
    match pySplitChar '=' part with
    | name :: v :: vs =>
      let value := List.intercalate ['='] (v :: vs)
      if value.isEmpty then none else some (String.mk name, String.mk value)
    | _ => none)

/-- `check_url_fragments` (lines 728–749): base URL before the first
`#`, and the parsed fragment dictionary (or `None` if no fragment). -/
def checkUrlFragments (raw : String) : String × Option (List (String × String)) :=
  let cs := raw.toList
  let base := cs.takeWhile (fun c => c ≠ '#')
  let frag := (cs.dropWhile (fun c => c ≠ '#')).drop 1
  (String.mk base, if frag.isEmpty then none else some (parseQsPairs frag))

/-- `fragments.get(k)` (first occurrence; the model assumes each key
appears at most once, as `main` does when flattening `parse_qs` lists). -/
def fragLookup (frags : List (String × String)) (k : String) : Option String :=
  (frags.find? (fun p => p.1 == k)).map Prod.snd

/-- `(fragments[k].lower() == "true") if k in fragments else None`
(lines 989–991). -/
def fragBoolFlag (frags? : Option (List (String × String))) (k : String) : Option Bool :=
  match frags? with
  | none => none
  | some frags => (fragLookup frags k).map (fun v => pyLower v == "true")

/-- `if flag is None and args.flag: flag = args.flag` (lines 1003–1008). -/
def mergeFlag (frag : Option Bool) (arg : Bool) : Option Bool :=
  match frag with
  | none => if arg then some true else none
  | some b => some b

/-- Resolution of the `novariantcheck`, `noaudio` and `novideo` flags
from fragments and CLI arguments (lines 984–1008). -/
def resolveFlags (frags? : Option (List (String × String)))
    (argNoVariant argNoAudio argNoVideo : Bool) :
    Option Bool × Option Bool × Option Bool :=
  (mergeFlag (fragBoolFlag frags? "novariantcheck") argNoVariant,
   mergeFlag (fragBoolFlag frags? "noaudio") argNoAudio,
   mergeFlag (fragBoolFlag frags? "novideo") argNoVideo)

/-- Clearkey resolution (lines 985, 997–999): the fragment value wins;
the `-clearkeys` lookup (whose outcome is the oracle `lookupResult`) is
consulted only when the fragment is absent and the argument given. -/
def resolveClearkey (frags? : Option (List (String × String)))
    (argsClearkeys : Option String) (lookupResult : Option String) : Option String :=
  match (match frags? with | none => none | some fs => fragLookup fs "clearkey") with
  | some v => some v
  | none => if argsClearkeys.isSome then lookupResult else none

/-- `parse_args` validation (lines 590–597): `-proxybypass` requires
`-proxy`, and at most one of the three variant flags may be set on the
command line.  `true` means the arguments are accepted. -/
def validateArgs (proxy proxybypass : Option String)
    (novariantcheck novideo noaudio : Bool) : Bool :=
  !(proxybypass.isSome && !proxy.isSome) &&
  Nat.ble ((if novideo then 1 else 0) + (if noaudio then 1 else 0) +
    (if novariantcheck then 1 else 0)) 1

/-- The automatic variant check gate (lines 1128–1137): run only when
all three resolved flags are `None`; variant 1 forces `novideo`,
variant 2 forces `noaudio`.  Returns the updated (noaudio, novideo). -/
def applyVariantCheck (novariantcheck noaudio novideo : Option Bool) (variant : Nat) :
    Option Bool × Option Bool :=
  if novideo = none && noaudio = none && novariantcheck = none then
    if variant = 1 then (noaudio, some true)
    else if variant = 2 then (some true, novideo)
    else (noaudio, novideo)
  else (noaudio, novideo)

/-- The slice of `main` from fragment extraction to the mux decision
(lines 969, 984–1008, 1128–1154) for a given input URL, CLI flags,
detected variant and selected stream. -/
def mainMuxOutcome (url : String) (argNoVariant argNoAudio argNoVideo : Bool)
    (variant : Nat) (stream : α) : MuxedOut α × Bool :=
  let frags? := (checkUrlFragments url).2
  let r := resolveFlags frags? argNoVariant argNoAudio argNoVideo
  let r2 := applyVariantCheck r.1 r.2.1 r.2.2 variant
  muxStep r2.1 r2.2 stream

/-! ## Concrete test fixtures for the spec's scenarios -/

/-- Session options with no decryption keys, no subtitles, implicit
locale. -/
def optsPlain : SessionOpts := ⟨[], false, false, ""⟩

/-- A video representation without height, bandwidth in kbit/s. -/
def vRep (bw : Nat) : SRep := ⟨"video/mp4", false, none, bw, none⟩

/-- An audio representation with a language tag. -/
def aRep (bw : Nat) (l : String) : SRep := ⟨"audio/mp4", false, none, bw, some l⟩

/-- The §8 manifest: three video representations (500, 1000, 1000 kbit/s)
and one audio representation. -/
def periodC6 : Period := ⟨[⟨false, [vRep 500, vRep 1000, vRep 1000, aRep 128 "en"]⟩]⟩

/-- The stream built for video bandwidth `bw` in the `periodC6` scenario. -/
def streamC6 (bw : Nat) : DStreamDRM :=
  ⟨some (vRep bw), [some (aRep 128 "en")], [none]⟩

/-- A period with one 720p video and two audio languages (`en`, `fr`). -/
def periodC7 : Period :=
  ⟨[⟨false, [⟨"video/mp4", false, some 720, 2000, none⟩, aRep 128 "en", aRep 129 "fr"]⟩]⟩

/-- Does `needle` occur as a contiguous substring of `hay` (model of
Python's `in` on strings)?  Used to state whether an error message
"names" an offending entry. -/
def containsSub (needle hay : List Char) : Bool :=
  match hay with
  | [] => needle.isEmpty
  | _ :: t => needle.isPrefixOf hay || containsSub needle t

/-! ## Helper lemmas -/

theorem isHexDigitPy_not_space {c : Char} (h : isHexDigitPy c = true) :
    isPySpace c = false := by
  by_contra hs
  have hs2 : isPySpace c = true := by
    cases h2 : isPySpace c
    · exact absurd h2 hs
    · rfl
  simp only [isPySpace, Bool.or_eq_true, decide_eq_true_eq] at hs2
  rcases hs2 with ((((rfl | rfl) | rfl) | rfl) | rfl) | rfl <;>
    simp [isHexDigitPy] at h

theorem dropWhile_space_eq_self {cs : List Char}
    (h : ∀ c ∈ cs, isHexDigitPy c = true) : cs.dropWhile isPySpace = cs := by
  cases cs with
  | nil => rfl
  | cons c cs =>
    have := isHexDigitPy_not_space (h c (by simp))
    simp [List.dropWhile_cons, this]

theorem pyStrip_eq_self {cs : List Char}
    (h : ∀ c ∈ cs, isHexDigitPy c = true) : pyStrip cs = cs := by
  unfold pyStrip
  rw [dropWhile_space_eq_self h, dropWhile_space_eq_self (by
    intro c hc
    exact h c (List.mem_reverse.mp hc)), List.reverse_reverse]

theorem hexRest_of_all {cs : List Char}
    (h : ∀ c ∈ cs, isHexDigitPy c = true) : hexRest cs = true := by
  induction cs with
  | nil => rfl
  | cons c cs ih =>
    have hc : isHexDigitPy c = true := h c (by simp)
    have hcs : ∀ x ∈ cs, isHexDigitPy x = true := fun x hx => h x (by simp [hx])
    have hne : ¬(c = '_') := by
      rintro rfl
      simp [isHexDigitPy] at hc
    rw [hexRest.eq_def]
    simp [hne, hc, ih hcs]

theorem hexRun_of_all {cs : List Char} (hne : cs ≠ [])
    (h : ∀ c ∈ cs, isHexDigitPy c = true) : hexRun cs = true := by
  cases cs with
  | nil => exact absurd rfl hne
  | cons c cs =>
    simp only [hexRun]
    rw [h c (by simp), hexRest_of_all (fun x hx => h x (by simp [hx]))]
    rfl

theorem stripSign_eq_self {cs : List Char}
    (h : ∀ c ∈ cs, isHexDigitPy c = true) : stripSign cs = cs := by
  cases cs with
  | nil => rfl
  | cons c cs =>
    have hc : isHexDigitPy c = true := h c (by simp)
    have hp : ¬(c = '+') := by rintro rfl; simp [isHexDigitPy] at hc
    have hm : ¬(c = '-') := by rintro rfl; simp [isHexDigitPy] at hc
    simp [stripSign, hp, hm]

theorem dropHexPrefix_of_all {cs : List Char}
    (h : ∀ c ∈ cs, isHexDigitPy c = true) : dropHexPrefix cs = none := by
  match cs with
  | [] => rfl
  | [c] => rfl
  | c0 :: c1 :: rest =>
    have h1 : isHexDigitPy c1 = true := h c1 (by simp)
    have hx : ¬(c1 = 'x') := by rintro rfl; simp [isHexDigitPy] at h1
    have hX : ¬(c1 = 'X') := by rintro rfl; simp [isHexDigitPy] at h1
    simp [dropHexPrefix, hx, hX]

theorem pyInt16Ok_of_all_hex (s : String) (h1 : s.toList ≠ [])
    (h2 : ∀ c ∈ s.toList, isHexDigitPy c = true) : pyInt16Ok s = true := by
  unfold pyInt16Ok
  rw [pyStrip_eq_self h2, stripSign_eq_self h2, dropHexPrefix_of_all h2]
  exact hexRun_of_all h1 h2

theorem digitChar_hex : ∀ d : Nat, d < 16 → isHexDigitPy (Nat.digitChar d) = true := by
  decide

theorem bytesToHex_all_hex (bs : List Nat) :
    ∀ c ∈ (bytesToHex bs).toList, isHexDigitPy c = true := by
  intro c hc
  have hc2 : c ∈ bs.flatMap byteToHexChars := hc
  rw [List.mem_flatMap] at hc2
  obtain ⟨b, _, hb⟩ := hc2
  simp only [byteToHexChars, List.mem_cons, List.mem_singleton] at hb
  rcases hb with rfl | rfl | h
  · exact digitChar_hex _ (Nat.mod_lt _ (by omega))
  · exact digitChar_hex _ (Nat.mod_lt _ (by omega))
  · exact absurd h (List.not_mem_nil c)

theorem bytesToHex_length (bs : List Nat) :
    (bytesToHex bs).length = 2 * bs.length := by
  show (bs.flatMap byteToHexChars).length = 2 * bs.length
  induction bs with
  | nil => rfl
  | cons b bs ih =>
    simp only [List.flatMap_cons, List.length_append, ih, byteToHexChars]
    simp [Nat.mul_add, Nat.add_comm]

theorem bytesToHex_ne_empty {bs : List Nat} (h : bs ≠ []) :
    ¬(bytesToHex bs = "") := by
  intro he
  have : (bytesToHex bs).length = 0 := by rw [he]; rfl
  rw [bytesToHex_length] at this
  cases bs with
  | nil => exact h rfl
  | cons b bs => simp at this

/-- **C1.** Key Normalizer identity and decode: a key entry whose
candidate (the part after the last colon) is already a valid
32-hex-character key is returned unchanged; a candidate of length 21–24
is treated as URL-safe base64, padded with `=` to a multiple of 4 and
decoded to hex (and, when that hex form has 32 characters, it is the
returned key); the output list preserves the input order of the
entries (`Forall₂` pairs input entries with output keys positionally). -/
theorem processKeys_c1_identity_decode_order :
    (∀ k : String, isHex32 (candidateOf k) = true →
      processKeyEntry k = .ok (candidateOf k)) ∧
    (∀ (k : String) (bs : List Nat),
      ((candidateOf k).length = 21 || (candidateOf k).length = 22 ||
       (candidateOf k).length = 23 || (candidateOf k).length = 24) = true →
      urlsafeB64Decode (padB64 (candidateOf k)) = some bs →
      bs ≠ [] →
      keyFinalForm k = some (bytesToHex bs) ∧
      ((bytesToHex bs).length = 32 → processKeyEntry k = .ok (bytesToHex bs))) ∧
    (∀ ks rs : List String, processKeys ks = .ok rs →
      List.Forall₂ (fun k r => processKeyEntry k = .ok r) ks rs) := by
  refine ⟨?_, ?_, ?_⟩
  · intro k h
    simp only [isHex32, Bool.and_eq_true, decide_eq_true_eq, List.all_eq_true] at h
    obtain ⟨hlen, hall⟩ := h
    have hff : keyFinalForm k = some (candidateOf k) := by
      simp [keyFinalForm, hlen]
    have hne : (candidateOf k).toList ≠ [] := by
      intro he
      have : (candidateOf k).length = 0 := by
        show (candidateOf k).toList.length = 0
        rw [he]
        rfl
      omega
    simp [processKeyEntry, hff, hlen,
      pyInt16Ok_of_all_hex (candidateOf k) hne hall]
  · intro k bs hlen hdec hne
    have hff : keyFinalForm k = some (bytesToHex bs) := by
      simp only [keyFinalForm, hlen, if_true, hdec]
      simp [bytesToHex_ne_empty hne]
    refine ⟨hff, fun h32 => ?_⟩
    have hlne : (bytesToHex bs).toList ≠ [] := by
      intro he
      have : (bytesToHex bs).length = 0 := by
        show (bytesToHex bs).toList.length = 0
        rw [he]
        rfl
      omega
    simp [processKeyEntry, hff, h32,
      pyInt16Ok_of_all_hex (bytesToHex bs) hlne (bytesToHex_all_hex bs)]
  · intro ks
    induction ks with
    | nil =>
      intro rs h
      simp only [processKeys] at h
      injection h with h
      subst h
      exact List.Forall₂.nil
    | cons k ks ih =>
      intro rs h
      simp only [processKeys] at h
      cases he : processKeyEntry k with
      | error e =>
        rw [he] at h
        simp only [bind, Except.bind] at h
        exact Except.noConfusion h
      | ok r =>
        rw [he] at h
        cases hrest : processKeys ks with
        | error e =>
          rw [hrest] at h
          simp only [bind, Except.bind, Functor.map, Except.map] at h
          exact Except.noConfusion h
        | ok rest =>
          rw [hrest] at h
          simp only [bind, Except.bind, pure, Except.pure] at h
          injection h with h
          subst h
          exact List.Forall₂.cons he (ih rest hrest)

/-- Witness for C1: concrete instances — a `kid:key` entry with a valid
32-hex candidate is returned unchanged, and a 22-character URL-safe
base64 candidate is decoded to its 32-hex form. -/
theorem processKeys_c1_witness :
    processKeyEntry "kid1234:00112233445566778899aabbccddeeff" =
      .ok "00112233445566778899aabbccddeeff" ∧
    keyFinalForm "AAAAAAAAAAAAAAAAAAAAAA" =
      some "00000000000000000000000000000000" ∧
    processKeyEntry "AAAAAAAAAAAAAAAAAAAAAA" =
      .ok "00000000000000000000000000000000" := by
  have h1 := processKeys_c1_identity_decode_order.1
    "kid1234:00112233445566778899aabbccddeeff" (by decide)
  have h2 := processKeys_c1_identity_decode_order.2.1
    "AAAAAAAAAAAAAAAAAAAAAA" (List.replicate 16 0) (by decide) (by decide)
    (by decide)
  exact ⟨h1, h2.1, h2.2 (by decide)⟩


theorem processKeyEntry_of_final_none {k : String}
    (hf : keyFinalForm k = none) :
    processKeyEntry k = .error .binasciiError := by
  simp [processKeyEntry, hf]

theorem processKeyEntry_of_final_some {k f : String}
    (hf : keyFinalForm k = some f) :
    processKeyEntry k =
      if f.length = 32 then
        if pyInt16Ok f then .ok f else .error (.fatalPlugin invalidHexMsg)
      else .error (.fatalPlugin wrongLenMsg) := by
  simp [processKeyEntry, hf]

/-- **C2 counterexample.** The claim says a rejected entry fails with an
error "naming the offending entry".  For the entry consisting of 32 `z`
characters, `_process_keys` raises `FatalPluginError` with its fixed
message, and that message does not contain the entry: the error does not
name the offending entry. -/
theorem processKeys_c2_counterexample :
    processKeys ["zzzzzzzzzzzzzzzzzzzzzzzzzzzzzzzz"] =
      .error (.fatalPlugin invalidHexMsg) ∧
    containsSub "zzzzzzzzzzzzzzzzzzzzzzzzzzzzzzzz".toList
      invalidHexMsg.toList = false := by
  exact ⟨rfl, rfl⟩

/-- **C2 (amended).** Key Normalizer rejection: for every key entry whose
candidate, after the optional base64-decode step (when that step itself
does not raise), is not exactly 32 characters or does not parse as a
base-16 integer, `_process_keys` fails with `InvalidKeyFormatError`
(`FatalPluginError`), carrying one of two fixed messages that do not
name the offending entry; and it raises this error for no other input:
at the list level, the error occurs exactly when some entry with all
earlier entries accepted is rejected this way. -/
theorem processKeys_c2_rejection_amended :
    (∀ k : String,
      (∃ m, processKeyEntry k = .error (.fatalPlugin m)) ↔
      (∃ f, keyFinalForm k = some f ∧
        (f.length ≠ 32 ∨ pyInt16Ok f = false))) ∧
    (∀ (k : String) (m : String),
      processKeyEntry k = .error (.fatalPlugin m) →
      m = wrongLenMsg ∨ m = invalidHexMsg) ∧
    (∀ ks : List String,
      (∃ m, processKeys ks = .error (.fatalPlugin m)) ↔
      (∃ pre k post, ks = pre ++ k :: post ∧
        (∀ k2 ∈ pre, ∃ r, processKeyEntry k2 = .ok r) ∧
        (∃ m, processKeyEntry k = .error (.fatalPlugin m)))) := by
  have entry_iff : ∀ k : String,
      (∃ m, processKeyEntry k = .error (.fatalPlugin m)) ↔
      (∃ f, keyFinalForm k = some f ∧
        (f.length ≠ 32 ∨ pyInt16Ok f = false)) := by
    intro k
    cases hf : keyFinalForm k with
    | none =>
      rw [processKeyEntry_of_final_none hf]
      constructor
      · rintro ⟨m, hm⟩
        exact absurd (by injection hm) (by simp)
      · rintro ⟨f, hf2, _⟩
        exact Option.noConfusion hf2
    | some f =>
      rw [processKeyEntry_of_final_some hf]
      constructor
      · rintro ⟨m, hm⟩
        by_cases h32 : f.length = 32
        · rw [if_pos h32] at hm
          by_cases hp : pyInt16Ok f = true
          · rw [if_pos hp] at hm
            exact Except.noConfusion hm
          · exact ⟨f, rfl, Or.inr (by simpa using hp)⟩
        · exact ⟨f, rfl, Or.inl h32⟩
      · rintro ⟨f2, hf2, hbad⟩
        injection hf2 with hf2
        subst hf2
        rcases hbad with h32 | hp
        · exact ⟨wrongLenMsg, by rw [if_neg h32]⟩
        · by_cases h32 : f.length = 32
          · exact ⟨invalidHexMsg, by rw [if_pos h32, if_neg (by simp [hp])]⟩
          · exact ⟨wrongLenMsg, by rw [if_neg h32]⟩
  refine ⟨entry_iff, ?_, ?_⟩
  · intro k m hm
    cases hf : keyFinalForm k with
    | none =>
      rw [processKeyEntry_of_final_none hf] at hm
      exact absurd (by injection hm) (by simp)
    | some f =>
      rw [processKeyEntry_of_final_some hf] at hm
      by_cases h32 : f.length = 32
      · rw [if_pos h32] at hm
        by_cases hp : pyInt16Ok f = true
        · rw [if_pos hp] at hm
          exact Except.noConfusion hm
        · rw [if_neg hp] at hm
          injection hm with hm
          injection hm with hm
          exact Or.inr hm.symm
      · rw [if_neg h32] at hm
        injection hm with hm
        injection hm with hm
        exact Or.inl hm.symm
  · intro ks
    induction ks with
    | nil =>
      constructor
      · rintro ⟨m, hm⟩
        exact Except.noConfusion hm
      · rintro ⟨pre, k, post, habs, _, _⟩
        exact absurd habs (by simp)
    | cons k ks ih =>
      constructor
      · rintro ⟨m, hm⟩
        simp only [processKeys] at hm
        cases he : processKeyEntry k with
        | error e =>
          rw [he] at hm
          simp only [bind, Except.bind] at hm
          injection hm with hm
          exact ⟨[], k, ks, rfl, by simp, ⟨m, by rw [he, hm]⟩⟩
        | ok r =>
          rw [he] at hm
          cases hrest : processKeys ks with
          | error e =>
            rw [hrest] at hm
            simp only [bind, Except.bind, Functor.map, Except.map] at hm
            injection hm with hm
            obtain ⟨pre, k2, post, hsplit, hok, hbad⟩ :=
              ih.mp ⟨m, by rw [hrest, hm]⟩
            exact ⟨k :: pre, k2, post, by simp [hsplit], by
              intro k3 hk3
              rcases List.mem_cons.mp hk3 with rfl | hk3
              · exact ⟨r, he⟩
              · exact hok k3 hk3, hbad⟩
          | ok rest =>
            rw [hrest] at hm
            simp only [bind, Except.bind, pure, Except.pure] at hm
            exact Except.noConfusion hm
      · rintro ⟨pre, k2, post, hsplit, hok, m, hbad⟩
        cases pre with
        | nil =>
          simp only [List.nil_append] at hsplit
          injection hsplit with h1 h2
          subst h1
          subst h2
          refine ⟨m, ?_⟩
          simp only [processKeys, hbad, bind, Except.bind]
        | cons p pre2 =>
          injection hsplit with h1 h2
          subst h1
          obtain ⟨r, hr⟩ := hok k (by simp)
          obtain ⟨m2, hm2⟩ := ih.mpr ⟨pre2, k2, post, h2, by
            intro k3 hk3
            exact hok k3 (by simp [hk3]), m, hbad⟩
          refine ⟨m2, ?_⟩
          simp only [processKeys, hr, hm2, bind, Except.bind, Functor.map,
            Except.map]

/-- Witness for the amended C2: a 5-character entry is rejected with
`InvalidKeyFormatError`, derived through the amended theorem. -/
theorem processKeys_c2_witness :
    ∃ m, processKeys ["short"] = .error (.fatalPlugin m) := by
  exact (processKeys_c2_rejection_amended.2.2 ["short"]).mpr
    ⟨[], "short", [], rfl, by simp,
     (processKeys_c2_rejection_amended.1 "short").mpr
       ⟨"short", by decide, Or.inl (by decide)⟩⟩

/-- **C3.** Mux Command Builder key assignment: with a key list of length
2 and a command template containing 3 `-i` input arguments, the keys
inserted before the inputs are, in order, key0, key1, key1 (the slot
counter wraps to slot 1, not slot 0, after exhaustion); and a single
supplied key is doubled by `_get_keys` and then assigned to every input
slot (broadcast). -/
theorem rebuildCmd_c3_key_assignment :
    (∀ k0 k1 f1 f2 f3 : String,
      rebuildCmd [k0, k1] false ["ffmpeg", "-i", f1, "-i", f2, "-i", f3, "pipe:1"] =
        some (["ffmpeg"] ++ keyInsertion k0 ++ ["-i", f1] ++
          keyInsertion k1 ++ ["-i", f2] ++ keyInsertion k1 ++ ["-i", f3] ++
          ["-mpegts_copyts", "1", "pipe:1"])) ∧
    (∀ k : String, getKeysOpt [k] = [k, k]) ∧
    (∀ k f1 f2 f3 : String,
      rebuildCmd (getKeysOpt [k]) false
          ["ffmpeg", "-i", f1, "-i", f2, "-i", f3, "pipe:1"] =
        some (["ffmpeg"] ++ keyInsertion k ++ ["-i", f1] ++
          keyInsertion k ++ ["-i", f2] ++ keyInsertion k ++ ["-i", f3] ++
          ["-mpegts_copyts", "1", "pipe:1"])) := by
  refine ⟨fun k0 k1 f1 f2 f3 => ?_, fun k => rfl, fun k f1 f2 f3 => ?_⟩
  · rfl
  · rfl

theorem scanReps_ok_of_clean (kg us : Bool) :
    ∀ (reps : List SRep) v a s,
    (∀ rep ∈ reps, rep.contentProtections = false) →
    ∃ t, scanReps kg us reps v a s = .ok t := by
  intro reps
  induction reps with
  | nil => exact fun v a s _ => ⟨(v, a, s), rfl⟩
  | cons rep rest ih =>
    intro v a s h
    have hp : rep.contentProtections = false := h rep (by simp)
    have hrest : ∀ r ∈ rest, r.contentProtections = false :=
      fun r hr => h r (by simp [hr])
    simp only [scanReps, hp, Bool.false_and, Bool.false_eq_true, if_false]
    split
    · exact ih _ _ _ hrest
    · split
      · exact ih _ _ _ hrest
      · split
        · exact ih _ _ _ hrest
        · exact ih _ _ _ hrest

theorem scanReps_err_of_protected (us : Bool) :
    ∀ (reps : List SRep) v a s,
    (∃ rep ∈ reps, rep.contentProtections = true) →
    scanReps false us reps v a s = .error .drmKeyRequired := by
  intro reps
  induction reps with
  | nil => rintro v a s ⟨rep, h, _⟩; exact absurd h (List.not_mem_nil rep)
  | cons rep rest ih =>
    rintro v a s ⟨r, hr, hrp⟩
    by_cases hp : rep.contentProtections = true
    · simp [scanReps, hp]
    · have hp2 : rep.contentProtections = false := by
        cases h2 : rep.contentProtections
        · rfl
        · exact absurd h2 hp
      have hmem : r ∈ rest := by
        rcases List.mem_cons.mp hr with rfl | h2
        · exact absurd hrp hp
        · exact h2
      simp only [scanReps, hp2, Bool.false_and, Bool.false_eq_true, if_false]
      split
      · exact ih _ _ _ ⟨r, hmem, hrp⟩
      · split
        · exact ih _ _ _ ⟨r, hmem, hrp⟩
        · split
          · exact ih _ _ _ ⟨r, hmem, hrp⟩
          · exact ih _ _ _ ⟨r, hmem, hrp⟩

theorem scanASets_err (opts : SessionOpts) (hkeys : opts.decryptionKey = []) :
    ∀ (asets : List AdaptationSet) v a s,
    (∃ aset ∈ asets, aset.contentProtections = true ∨
      ∃ rep ∈ aset.representations, rep.contentProtections = true) →
    scanASets opts asets v a s = .error .drmKeyRequired := by
  intro asets
  induction asets with
  | nil => rintro v a s ⟨aset, h, _⟩; exact absurd h (List.not_mem_nil aset)
  | cons aset rest ih =>
    rintro v a s ⟨g, hg, hgp⟩
    have hempty : opts.decryptionKey.isEmpty = true := by
      rw [hkeys]; rfl
    by_cases hcp : aset.contentProtections = true
    · simp [scanASets, hcp, hempty]
    · have hcp2 : aset.contentProtections = false := by
        cases h2 : aset.contentProtections
        · rfl
        · exact absurd h2 hcp
      simp only [scanASets, hcp2, Bool.false_and, Bool.false_eq_true, if_false]
      have hkg : (!opts.decryptionKey.isEmpty) = false := by
        rw [hempty]; rfl
      by_cases hrep : ∃ rep ∈ aset.representations, rep.contentProtections = true
      · rw [hkg, scanReps_err_of_protected opts.useSubtitles
          aset.representations v a s hrep]
      · have hclean : ∀ rep ∈ aset.representations,
            rep.contentProtections = false := by
          intro rep hmem
          cases h2 : rep.contentProtections
          · rfl
          · exact absurd ⟨rep, hmem, h2⟩ hrep
        obtain ⟨t, ht⟩ := scanReps_ok_of_clean (!opts.decryptionKey.isEmpty)
          opts.useSubtitles aset.representations v a s hclean
        rw [ht]
        have hgmem : g ∈ rest := by
          rcases List.mem_cons.mp hg with rfl | h2
          · rcases hgp with h3 | h3
            · exact absurd h3 hcp
            · exact absurd h3 hrep
          · exact h2
        exact ih t.1 t.2.1 t.2.2 ⟨g, hgmem, hgp⟩

/-- **C4.** DRM precondition: for a selected period in which some
AdaptationSet or some Representation carries a content-protection flag,
if no decryption keys are in the session options, the selection of
`parse_manifest` raises `DrmKeyRequiredError` (`PluginError`).  The
selection code performs no network I/O (it is embedded as a pure
function), so the error necessarily precedes any per-variant probe. -/
theorem parseManifestSel_c4_drm_required :
    ∀ (opts : SessionOpts) (wvo wao : Bool) (period : Period),
    opts.decryptionKey = [] →
    (∃ aset ∈ period.adaptationSets, aset.contentProtections = true ∨
      ∃ rep ∈ aset.representations, rep.contentProtections = true) →
    parseManifestSel opts wvo wao period = .error .drmKeyRequired := by
  intro opts wvo wao period hkeys hex
  have h := scanASets_err opts hkeys period.adaptationSets
    (if wao then [none] else []) (if wvo then [none] else [])
    (if wao then [none] else []) hex
  simp only [parseManifestSel, selBuckets, h]

/-- Witness for C4: a period with a single content-protected adaptation
set and an empty key list is rejected. -/
theorem parseManifestSel_c4_witness :
    parseManifestSel ⟨[], false, false, ""⟩ false false ⟨[⟨true, []⟩]⟩ =
      .error .drmKeyRequired := by
  exact parseManifestSel_c4_drm_required ⟨[], false, false, ""⟩ false false
    ⟨[⟨true, []⟩]⟩ rfl ⟨⟨true, []⟩, by simp, Or.inl rfl⟩

/-- **C5 counterexample.** The claim says a direct probe answering 301/302
without a `Location` header makes the resolver fall back to "use proxy,
original URL", i.e. return the original URL.  On a bypass-listed host
whose probe always answers 301 with no `Location`, the loop `break`s and
the function falls off the end of its `try` block, returning Python
`None` — the caller then *drops* the proxy.  The return value is not the
original URL. -/
theorem proxyBypassReq_c5_counterexample :
    proxyBypassReq (fun _ => .ok ⟨301, none⟩) "http://cam.lan/stream" "*.lan" 5 =
      some none ∧
    proxyBypassReq (fun _ => .ok ⟨301, none⟩) "http://cam.lan/stream" "*.lan" 5 ≠
      some (some "http://cam.lan/stream") := by
  constructor
  · rfl
  · intro h
    have : (some (none : Option String)) = some (some "http://cam.lan/stream") := by
      rw [← h]; rfl
    simp at this

/-- **C5 (amended).** Proxy Bypass Resolver on a redirect without
`Location`: for every candidate URL whose hostname matches the bypass
list, if the direct probe returns HTTP 301 or 302 with no `Location`
header, the resolver stops the redirect loop and returns `None`, which
the caller interprets as "bypass the proxy and keep the original URL"
(the proxy is dropped, not kept). -/
theorem proxyBypassReq_c5_missing_location_amended :
    ∀ (http : String → Except Unit HttpResp) (url bypasslist : String)
      (fuel : Nat) (h : String) (resp : HttpResp),
    urlHostname url = some h →
    hostMatchesAny h (bypassPatterns bypasslist) = true →
    http url = .ok resp →
    (resp.status = 301 ∨ resp.status = 302) →
    resp.location = none →
    proxyBypassReq http url bypasslist (fuel + 1) = some none := by
  intro http url bypasslist fuel h resp hhost hmatch hhttp hstatus hloc
  rcases hstatus with h3 | h3 <;>
    simp [proxyBypassReq, proxyBypassLoop, hhost, hmatch, hhttp, hloc, h3]

/-- Witness for the amended C5 at a concrete oracle and URL. -/
theorem proxyBypassReq_c5_witness :
    proxyBypassReq (fun _ => .ok ⟨301, none⟩) "http://cam.lan/stream" "*.lan"
      (4 + 1) = some none := by
  exact proxyBypassReq_c5_missing_location_amended (fun _ => .ok ⟨301, none⟩)
    "http://cam.lan/stream" "*.lan" 4 "cam.lan" ⟨301, none⟩
    (by rfl) (by rfl) (by rfl) (Or.inl rfl) rfl

theorem renameFrom_map_fst (q : String) :
    ∀ (n : Nat) (l : List DStreamDRM),
    (renameFrom q n l).map Prod.fst = (List.range' n l.length).map (suffixName q) := by
  intro n l
  induction l generalizing n with
  | nil => rfl
  | cons s ss ih =>
    simp only [renameFrom, List.map_cons, List.length_cons, List.range',
      ih (n + 1)]

theorem renameFrom_map_snd (q : String) :
    ∀ (n : Nat) (l : List DStreamDRM), (renameFrom q n l).map Prod.snd = l := by
  intro n l
  induction l generalizing n with
  | nil => rfl
  | cons s ss ih => simp only [renameFrom, List.map_cons, ih (n + 1)]

theorem mem_renameFrom {q nm : String} {s : DStreamDRM} :
    ∀ {n : Nat} {l : List DStreamDRM}, (nm, s) ∈ renameFrom q n l →
    (∃ i, nm = suffixName q i) ∧ s ∈ l := by
  intro n l
  induction l generalizing n with
  | nil => intro h; exact absurd h (List.not_mem_nil _)
  | cons x xs ih =>
    intro h
    rcases List.mem_cons.mp h with heq | hmem
    · injection heq with h1 h2
      subst h2
      exact ⟨⟨n, h1.symm ▸ rfl⟩, by simp⟩
    · obtain ⟨hi, hs⟩ := ih hmem
      exact ⟨hi, by simp [hs]⟩

theorem insertDesc_perm (x : DStreamDRM) :
    ∀ l : List DStreamDRM, List.Perm (insertDesc x l) (x :: l) := by
  intro l
  induction l with
  | nil => exact List.Perm.refl _
  | cons y ys ih =>
    by_cases hc : sortbyBandwidth y ≤ sortbyBandwidth x
    · simp only [insertDesc, if_pos hc]
      exact List.Perm.refl _
    · simp only [insertDesc, if_neg hc]
      exact (List.Perm.cons y ih).trans (List.Perm.swap x y ys)

theorem sortDesc_perm : ∀ l : List DStreamDRM, List.Perm (sortDesc l) l := by
  intro l
  induction l with
  | nil => exact List.Perm.refl _
  | cons x xs ih =>
    exact (insertDesc_perm x (sortDesc xs)).trans (List.Perm.cons x ih)

theorem insertDesc_head (x : DStreamDRM) (l : List DStreamDRM) :
    (insertDesc x l).head? = some x ∨ (insertDesc x l).head? = l.head? := by
  cases l with
  | nil => exact Or.inl rfl
  | cons y ys =>
    by_cases hc : sortbyBandwidth y ≤ sortbyBandwidth x
    · simp only [insertDesc, if_pos hc]
      exact Or.inl rfl
    · simp only [insertDesc, if_neg hc]
      exact Or.inr rfl

theorem insertDesc_chain (x : DStreamDRM) :
    ∀ l : List DStreamDRM,
    List.Chain' (fun a b => sortbyBandwidth b ≤ sortbyBandwidth a) l →
    List.Chain' (fun a b => sortbyBandwidth b ≤ sortbyBandwidth a)
      (insertDesc x l) := by
  intro l
  induction l with
  | nil => intro _; simp [insertDesc]
  | cons y ys ih =>
    intro h
    by_cases hc : sortbyBandwidth y ≤ sortbyBandwidth x
    · simp only [insertDesc, if_pos hc]
      exact List.chain'_cons.mpr ⟨hc, h⟩
    · simp only [insertDesc, if_neg hc]
      refine List.chain'_cons'.mpr ⟨?_, ih (List.Chain'.tail h)⟩
      intro z hz
      rcases insertDesc_head x ys with hh | hh
      · rw [Option.mem_def] at hz
        rw [hz] at hh
        injection hh with hh
        subst hh
        exact Nat.le_of_lt (Nat.lt_of_not_le hc)
      · rw [Option.mem_def] at hz
        rw [hz] at hh
        exact (List.chain'_cons'.mp h).1 z (by rw [Option.mem_def, ← hh])

theorem sortDesc_chain :
    ∀ l : List DStreamDRM,
    List.Chain' (fun a b => sortbyBandwidth b ≤ sortbyBandwidth a)
      (sortDesc l) := by
  intro l
  induction l with
  | nil => simp [sortDesc]
  | cons x xs ih => exact insertDesc_chain x (sortDesc xs) ih

theorem mem_buildRet {v a subs : List (Option SRep)} {nm : String}
    {s : DStreamDRM} (h : (nm, s) ∈ buildRet v a subs) :
    nm = streamBaseName s.video ∧ s.audio_representations = a ∧
      s.subtitles_representations = subs := by
  unfold buildRet at h
  rw [List.mem_filterMap] at h
  obtain ⟨p, _, hp⟩ := h
  by_cases hc : (p.1.isNone && p.2.isNone) = true
  · rw [if_pos hc] at hp
    exact Option.noConfusion hp
  · rw [if_neg hc] at hp
    injection hp with hp
    rw [Prod.ext_iff] at hp
    obtain ⟨h1, h2⟩ := hp
    subst h2
    exact ⟨h1.symm, rfl, rfl⟩

theorem addToGroups_inv (P : String → DStreamDRM → Prop) :
    ∀ (gs : List (String × List DStreamDRM)) (k : String) (v : DStreamDRM),
    (∀ g ∈ gs, ∀ s ∈ g.2, P g.1 s) → P k v →
    ∀ g ∈ addToGroups k v gs, ∀ s ∈ g.2, P g.1 s := by
  intro gs
  induction gs with
  | nil =>
    intro k v _ hkv g hg s hs
    rcases List.mem_singleton.mp hg with rfl
    rcases List.mem_singleton.mp hs with rfl
    exact hkv
  | cons g0 rest ih =>
    intro k v h0 hkv g hg s hs
    by_cases hk : g0.1 = k
    · rw [addToGroups.eq_def] at hg
      simp only [if_pos hk] at hg
      rcases List.mem_cons.mp hg with rfl | hg2
      · rcases List.mem_append.mp hs with hs2 | hs2
        · exact h0 g0 (by simp) s hs2
        · rcases List.mem_singleton.mp hs2 with rfl
          exact hk ▸ hkv
      · exact h0 g (by simp [hg2]) s hs
    · rw [addToGroups.eq_def] at hg
      simp only [if_neg hk] at hg
      rcases List.mem_cons.mp hg with rfl | hg2
      · exact h0 g0 (by simp) s hs
      · exact ih k v (fun g2 hg2 => h0 g2 (by simp [hg2])) hkv g hg2 s hs

theorem groupByName_inv (P : String → DStreamDRM → Prop) :
    ∀ (l : List (String × DStreamDRM)) (gs0 : List (String × List DStreamDRM)),
    (∀ g ∈ gs0, ∀ s ∈ g.2, P g.1 s) →
    (∀ p ∈ l, P p.1 p.2) →
    ∀ g ∈ l.foldl (fun gs p => addToGroups p.1 p.2 gs) gs0, ∀ s ∈ g.2, P g.1 s := by
  intro l
  induction l with
  | nil => intro gs0 h0 _ g hg s hs; exact h0 g hg s hs
  | cons p rest ih =>
    intro gs0 h0 hl g hg s hs
    exact ih (addToGroups p.1 p.2 gs0)
      (addToGroups_inv P gs0 p.1 p.2 h0 (hl p (by simp)))
      (fun p2 hp2 => hl p2 (by simp [hp2])) g hg s hs

theorem mem_dictInsert {p : String × DStreamDRM} :
    ∀ (gs : List (String × DStreamDRM)) (k : String) (v : DStreamDRM),
    p ∈ dictInsert gs k v → p ∈ gs ∨ p = (k, v) := by
  intro gs
  induction gs with
  | nil =>
    intro k v h
    exact Or.inr (List.mem_singleton.mp h)
  | cons g0 rest ih =>
    intro k v h
    rw [dictInsert.eq_def] at h
    by_cases hk : g0.1 = k
    · simp only [if_pos hk] at h
      rcases List.mem_cons.mp h with rfl | h2
      · exact Or.inr (by rw [hk])
      · exact Or.inl (by simp [h2])
    · simp only [if_neg hk] at h
      rcases List.mem_cons.mp h with rfl | h2
      · exact Or.inl (by simp)
      · rcases ih k v h2 with h3 | h3
        · exact Or.inl (by simp [h3])
        · exact Or.inr h3

theorem mem_dictInsertList {p : String × DStreamDRM} :
    ∀ (ps gs : List (String × DStreamDRM)),
    p ∈ dictInsertList gs ps → p ∈ gs ∨ p ∈ ps := by
  intro ps
  induction ps with
  | nil => intro gs h; exact Or.inl h
  | cons p0 rest ih =>
    intro gs h
    rcases ih (dictInsert gs p0.1 p0.2) h with h2 | h2
    · rcases mem_dictInsert gs p0.1 p0.2 h2 with h3 | h3
      · exact Or.inl h3
      · exact Or.inr (by simp [h3])
    · exact Or.inr (by simp [h2])

theorem mem_renameAll {p : String × DStreamDRM} :
    ∀ (groups : List (String × List DStreamDRM))
      (acc : List (String × DStreamDRM)),
    p ∈ groups.foldl (fun acc g => dictInsertList acc (renameGroup g.1 g.2)) acc →
    p ∈ acc ∨ ∃ g ∈ groups, p ∈ renameGroup g.1 g.2 := by
  intro groups
  induction groups with
  | nil => intro acc h; exact Or.inl h
  | cons g0 rest ih =>
    intro acc h
    rcases ih (dictInsertList acc (renameGroup g0.1 g0.2)) h with h2 | h2
    · rcases mem_dictInsertList (renameGroup g0.1 g0.2) acc h2 with h3 | h3
      · exact Or.inl h3
      · exact Or.inr ⟨g0, by simp, h3⟩
    · obtain ⟨g, hg, hp⟩ := h2
      exact Or.inr ⟨g, by simp [hg], hp⟩

theorem parseManifestSel_ok_shape {opts : SessionOpts} {wvo wao : Bool}
    {period : Period} {out : List (String × DStreamDRM)}
    (h : parseManifestSel opts wvo wao period = .ok out) :
    ∃ v a s, selBuckets opts wvo wao period = .ok (v, a, s) ∧
      out = renameAll (groupByName (buildRet v (audioFilteredOf opts a) s)) := by
  unfold parseManifestSel at h
  cases hsel : selBuckets opts wvo wao period with
  | error e =>
    rw [hsel] at h
    exact Except.noConfusion h
  | ok t =>
    obtain ⟨v, a, s⟩ := t
    rw [hsel] at h
    injection h with h
    exact ⟨v, a, s, rfl, h.symm⟩

/-- **C6.** Variant naming: the §8 manifest (video bandwidths 500, 1000,
1000 kbit/s plus one audio representation) yields exactly the three
distinctly named variants `500k`, `1000k`, `1000k_alt`; in general every
name in the selection output is the video-side base name (height with
`p`, else rounded kbit/s bandwidth with `k`) with a suffix from the
scheme `""`, `"_alt"`, `"_alt2"`, …; and each name group assigns those
suffixes positionally to its streams sorted by descending video
bandwidth (0 when the video side is absent). -/
theorem parseManifestSel_c6_variant_naming :
    (parseManifestSel optsPlain false false periodC6 =
      .ok [("500k", streamC6 500), ("1000k", streamC6 1000),
           ("1000k_alt", streamC6 1000)]) ∧
    (["500k", "1000k", "1000k_alt"] : List String).Nodup ∧
    (∀ (opts : SessionOpts) (wvo wao : Bool) (period : Period)
       (out : List (String × DStreamDRM)),
      parseManifestSel opts wvo wao period = .ok out →
      ∀ nm s, (nm, s) ∈ out →
        ∃ n, nm = suffixName (streamBaseName s.video) n) ∧
    (∀ (q : String) (items : List DStreamDRM),
      (renameGroup q items).map Prod.fst =
        (List.range items.length).map (suffixName q) ∧
      List.Perm ((renameGroup q items).map Prod.snd) items ∧
      List.Chain' (fun a b => sortbyBandwidth b ≤ sortbyBandwidth a)
        ((renameGroup q items).map Prod.snd)) := by
  refine ⟨by rfl, by decide, ?_, ?_⟩
  · intro opts wvo wao period out hout nm s hmem
    obtain ⟨v, a, sb, hsel, hshape⟩ := parseManifestSel_ok_shape hout
    subst hshape
    rcases mem_renameAll _ _ hmem with h0 | ⟨g, hg, hpg⟩
    · exact absurd h0 (List.not_mem_nil _)
    · unfold renameGroup at hpg
      obtain ⟨⟨i, hi⟩, hsmem⟩ := mem_renameFrom hpg
      have hsmem2 : s ∈ g.2 := (sortDesc_perm g.2).mem_iff.mp hsmem
      have hname := groupByName_inv (fun q st => q = streamBaseName st.video)
        (buildRet v (audioFilteredOf opts a) sb) [] (by simp)
        (fun p hp => (mem_buildRet (show (p.1, p.2) ∈ _ by simpa using hp)).1)
        g hg s hsmem2
      exact ⟨i, by rw [hi, hname]⟩
  · intro q items
    refine ⟨?_, ?_, ?_⟩
    · unfold renameGroup
      rw [renameFrom_map_fst, List.Perm.length_eq (sortDesc_perm items),
        List.range_eq_range']
    · unfold renameGroup
      rw [renameFrom_map_snd]
      exact sortDesc_perm items
    · unfold renameGroup
      rw [renameFrom_map_snd]
      exact sortDesc_chain items

/-- Witness for C6: through the general naming clause, the name of the
third variant of the §8 scenario decomposes as base name `1000k` plus a
suffix from the scheme. -/
theorem parseManifestSel_c6_witness :
    ∃ n, "1000k_alt" = suffixName "1000k" n := by
  have h := parseManifestSel_c6_variant_naming.2.2.1 optsPlain false false
    periodC6
    [("500k", streamC6 500), ("1000k", streamC6 1000),
     ("1000k_alt", streamC6 1000)]
    parseManifestSel_c6_variant_naming.1 "1000k_alt" (streamC6 1000)
    (by decide)
  exact h

/-- **C7 counterexample.** The claim says every constructed Variant
retains the *full, unfiltered* audio bucket even when the
working-language filter was applied.  In a period with one video and two
audio languages (`en`, `fr`), the bucket is `[en, fr]` but the built
variant carries only the filtered bucket `[en]`. -/
theorem parseManifestSel_c7_counterexample :
    selBuckets optsPlain false false periodC7 =
      .ok ([some ⟨"video/mp4", false, some 720, 2000, none⟩],
           [some (aRep 128 "en"), some (aRep 129 "fr")], [none]) ∧
    parseManifestSel optsPlain false false periodC7 =
      .ok [("720p", ⟨some ⟨"video/mp4", false, some 720, 2000, none⟩,
           [some (aRep 128 "en")], [none]⟩)] ∧
    ([some (aRep 128 "en")] : List (Option SRep)) ≠
      [some (aRep 128 "en"), some (aRep 129 "fr")] := by
  refine ⟨rfl, rfl, by decide⟩

/-- **C7 (amended).** Ride-along tracks: every constructed Variant
retains, as its ride-along track lists, the *language-filtered* audio
bucket (which equals the full bucket whenever at most one distinct audio
language exists) and the full subtitle bucket. -/
theorem parseManifestSel_c7_ride_along_amended :
    ∀ (opts : SessionOpts) (wvo wao : Bool) (period : Period)
      (v a s : List (Option SRep)) (out : List (String × DStreamDRM)),
    selBuckets opts wvo wao period = .ok (v, a, s) →
    parseManifestSel opts wvo wao period = .ok out →
    ∀ nm strm, (nm, strm) ∈ out →
      strm.audio_representations = audioFilteredOf opts a ∧
      strm.subtitles_representations = s ∧
      ((availableLanguages a).length ≤ 1 →
        strm.audio_representations = a) := by
  intro opts wvo wao period v a s out hsel hout nm strm hmem
  obtain ⟨v2, a2, s2, hsel2, hshape⟩ := parseManifestSel_ok_shape hout
  rw [hsel] at hsel2
  injection hsel2 with htup
  injection htup with h1 htup
  injection htup with h2 h3
  subst h1
  subst h2
  subst h3
  subst hshape
  rcases mem_renameAll _ _ hmem with h0 | ⟨g, hg, hpg⟩
  · exact absurd h0 (List.not_mem_nil _)
  · unfold renameGroup at hpg
    obtain ⟨_, hsmem⟩ := mem_renameFrom hpg
    have hsmem2 : strm ∈ g.2 := (sortDesc_perm g.2).mem_iff.mp hsmem
    have hfields := groupByName_inv
      (fun _ st => st.audio_representations = audioFilteredOf opts a ∧
        st.subtitles_representations = s)
      (buildRet v (audioFilteredOf opts a) s) [] (by simp)
      (fun p hp =>
        ⟨(mem_buildRet (show (p.1, p.2) ∈ _ by simpa using hp)).2.1,
         (mem_buildRet (show (p.1, p.2) ∈ _ by simpa using hp)).2.2⟩)
      g hg strm hsmem2
    refine ⟨hfields.1, hfields.2, fun hle => ?_⟩
    rw [hfields.1]
    unfold audioFilteredOf filterAudio
    rw [if_neg (by omega)]

/-- Witness for the amended C7 at the single-language §8 scenario: the
variant keeps the filtered bucket, which there equals the full audio
bucket, and the full subtitle bucket. -/
theorem parseManifestSel_c7_witness :
    (streamC6 500).audio_representations =
      audioFilteredOf optsPlain [some (aRep 128 "en")] ∧
    (streamC6 500).subtitles_representations = [none] ∧
    ((availableLanguages [some (aRep 128 "en")]).length ≤ 1 →
      (streamC6 500).audio_representations = [some (aRep 128 "en")]) := by
  exact parseManifestSel_c7_ride_along_amended optsPlain false false periodC6
    [some (vRep 500), some (vRep 1000), some (vRep 1000)]
    [some (aRep 128 "en")] [none]
    [("500k", streamC6 500), ("1000k", streamC6 1000),
     ("1000k_alt", streamC6 1000)]
    (by rfl) (by rfl) "500k" (streamC6 500) (by decide)

theorem httpBranch_cases (url : String) (probe : Option (Except Unit String)) :
    httpBranch url probe = 0 ∨ httpBranch url probe = 1 := by
  unfold httpBranch
  split
  · exact Or.inr rfl
  · split
    · exact Or.inl rfl
    · split
      · exact Or.inl rfl
      · exact Or.inl rfl
      · split
        · exact Or.inr rfl
        · split
          · exact Or.inl rfl
          · exact Or.inl rfl

theorem hlsCodecsClassify_cases (codecs : List String) :
    hlsCodecsClassify codecs = 0 ∨ hlsCodecsClassify codecs = 1 ∨
      hlsCodecsClassify codecs = 2 := by
  unfold hlsCodecsClassify
  split
  · exact Or.inr (Or.inl rfl)
  · split
    · exact Or.inr (Or.inr rfl)
    · exact Or.inl rfl

theorem no_common_av_suffix :
    ∀ ea ∈ audioExts, ∀ ec ∈ containerExts, ∀ u : List Char,
    ea.toList <:+ u → ec.toList <:+ u → False := by
  intro ea hea ec hec u ha hc
  fin_cases hea <;> fin_cases hec <;>
    exact absurd (List.suffix_of_suffix_length_le ha hc (by decide)) (by decide)

/-- **C8.** Variant Detector totality: `check_stream_variant` always
returns one of 0 (normal), 1 (audio only), 2 (video only) — it never
raises (in particular the Content-Type probe's exception path returns
0); for direct-file URLs the audio extensions `.aac`, `.m4a`, `.mp3`,
`.ogg` classify as audio-only and the container extensions `.mp4`,
`.mkv`, `.webm`, `.mov` classify as normal; and a failing Content-Type
probe defaults to normal. -/
theorem checkStreamVariant_c8_totality :
    (∀ (stream : StreamK) (probe : Option (Except Unit String)),
      checkStreamVariant stream probe = 0 ∨
      checkStreamVariant stream probe = 1 ∨
      checkStreamVariant stream probe = 2) ∧
    (∀ (url : String) (probe : Option (Except Unit String)),
      audioExts.any (fun e => pyEndsWith (pyLower url) e) = true →
      checkStreamVariant (.http url) probe = 1) ∧
    (∀ (url : String) (probe : Option (Except Unit String)),
      containerExts.any (fun e => pyEndsWith (pyLower url) e) = true →
      checkStreamVariant (.http url) probe = 0) ∧
    (∀ url : String,
      audioExts.any (fun e => pyEndsWith (pyLower url) e) = false →
      checkStreamVariant (.http url) (some (.error ())) = 0) := by
  refine ⟨?_, ?_, ?_, ?_⟩
  · intro stream probe
    cases stream with
    | hls url mv? =>
      cases mv? with
      | some mv =>
        simp only [checkStreamVariant]
        cases mv.playlists.find? (fun p => p.uri == url) with
        | some pl => exact hlsCodecsClassify_cases pl.codecs
        | none =>
          rcases httpBranch_cases url probe with h | h
          · exact Or.inl h
          · exact Or.inr (Or.inl h)
      | none =>
        simp only [checkStreamVariant]
        rcases httpBranch_cases url probe with h | h
        · exact Or.inl h
        · exact Or.inr (Or.inl h)
    | http url =>
      simp only [checkStreamVariant]
      rcases httpBranch_cases url probe with h | h
      · exact Or.inl h
      · exact Or.inr (Or.inl h)
    | nonHttp => exact Or.inl rfl
  · intro url probe haud
    simp only [checkStreamVariant, httpBranch, haud, if_true]
  · intro url probe hcont
    have haud : audioExts.any (fun e => pyEndsWith (pyLower url) e) = false := by
      cases h : audioExts.any (fun e => pyEndsWith (pyLower url) e) with
      | false => rfl
      | true =>
        exfalso
        rw [List.any_eq_true] at h hcont
        obtain ⟨ea, hea, ha⟩ := h
        obtain ⟨ec, hec, hc⟩ := hcont
        exact no_common_av_suffix ea hea ec hec (pyLower url).toList
          (List.isSuffixOf_iff_suffix.mp ha) (List.isSuffixOf_iff_suffix.mp hc)
    simp only [checkStreamVariant, httpBranch, haud, hcont,
      Bool.false_eq_true, if_false, if_true]
  · intro url haud
    simp only [checkStreamVariant, httpBranch, haud, Bool.false_eq_true,
      if_false]
    split
    · rfl
    · rfl

/-- Witness for C8 at concrete URLs: an `.mp3` URL is audio-only, an
`.mp4` URL is normal, and a probe failure on an extensionless URL is
normal; the totality clause instantiates at an HLS stream. -/
theorem checkStreamVariant_c8_witness :
    checkStreamVariant (.http "http://h/song.MP3") none = 1 ∧
    checkStreamVariant (.http "http://h/movie.mp4") none = 0 ∧
    checkStreamVariant (.http "http://h/stream") (some (.error ())) = 0 ∧
    (checkStreamVariant (.hls "u" (some ⟨[⟨"u", ["mp4a.40.2"]⟩]⟩)) none = 0 ∨
     checkStreamVariant (.hls "u" (some ⟨[⟨"u", ["mp4a.40.2"]⟩]⟩)) none = 1 ∨
     checkStreamVariant (.hls "u" (some ⟨[⟨"u", ["mp4a.40.2"]⟩]⟩)) none = 2) := by
  refine ⟨?_, ?_, ?_, ?_⟩
  · exact checkStreamVariant_c8_totality.2.1 "http://h/song.MP3" none (by decide)
  · exact checkStreamVariant_c8_totality.2.2.1 "http://h/movie.mp4" none
      (by decide)
  · exact checkStreamVariant_c8_totality.2.2.2 "http://h/stream" (by decide)
  · exact checkStreamVariant_c8_totality.1
      (.hls "u" (some ⟨[⟨"u", ["mp4a.40.2"]⟩]⟩)) none

/-- **C9.** Synthetic-track mutual exclusion at mux-decision time: when
both force-no-audio and force-no-video are truthy, no synthetic track is
muxed, the original stream is kept unchanged and a warning is surfaced;
when exactly one is truthy, exactly the corresponding synthetic track is
muxed in (silent audio for no-audio, blank video for no-video), with no
warning. -/
theorem muxStep_c9_mutual_exclusion :
    (∀ {α : Type} (s : α) (na nv : Option Bool),
      pyTruthy na = true → pyTruthy nv = true →
      muxStep na nv s = (.plain s, true)) ∧
    (∀ {α : Type} (s : α) (na nv : Option Bool),
      pyTruthy na = true → pyTruthy nv = false →
      muxStep na nv s = (.withSilentAudio s, false)) ∧
    (∀ {α : Type} (s : α) (na nv : Option Bool),
      pyTruthy na = false → pyTruthy nv = true →
      muxStep na nv s = (.withBlankVideo s, false)) := by
  refine ⟨?_, ?_, ?_⟩
  · intro α s na nv h1 h2
    simp [muxStep, h1, h2]
  · intro α s na nv h1 h2
    simp [muxStep, h1, h2]
  · intro α s na nv h1 h2
    simp [muxStep, h1, h2]

/-- Witness for C9 on a concrete stream value and concrete flags. -/
theorem muxStep_c9_witness :
    muxStep (some true) (some true) (7 : Nat) = (.plain 7, true) ∧
    muxStep (some true) none (7 : Nat) = (.withSilentAudio 7, false) ∧
    muxStep none (some true) (7 : Nat) = (.withBlankVideo 7, false) := by
  exact ⟨muxStep_c9_mutual_exclusion.1 7 _ _ rfl rfl,
    muxStep_c9_mutual_exclusion.2.1 7 _ _ rfl rfl,
    muxStep_c9_mutual_exclusion.2.2 7 _ _ rfl rfl⟩

/-- **C10.** Fragment precedence over CLI: whenever a fragment key among
`novariantcheck`, `noaudio`, `novideo`, `clearkey` is present, its value
determines the resolved setting, whatever the CLI arguments; the CLI
flag is consulted only when the fragment is absent; and because
fragments are read only after `parse_args` validation, a URL carrying
both `noaudio=true` and `novideo=true` passes validation (done on CLI
flags alone) and reaches the warn-and-ignore mux path, not a
configuration error. -/
theorem mainFlags_c10_fragment_precedence :
    (∀ (frags : List (String × String)) (v : String) (a1 a2 a3 : Bool),
      fragLookup frags "novariantcheck" = some v →
      (resolveFlags (some frags) a1 a2 a3).1 = some (pyLower v == "true")) ∧
    (∀ (frags : List (String × String)) (v : String) (a1 a2 a3 : Bool),
      fragLookup frags "noaudio" = some v →
      (resolveFlags (some frags) a1 a2 a3).2.1 = some (pyLower v == "true")) ∧
    (∀ (frags : List (String × String)) (v : String) (a1 a2 a3 : Bool),
      fragLookup frags "novideo" = some v →
      (resolveFlags (some frags) a1 a2 a3).2.2 = some (pyLower v == "true")) ∧
    (∀ (frags : List (String × String)) (ck : String)
       (argsCk lookupR : Option String),
      fragLookup frags "clearkey" = some ck →
      resolveClearkey (some frags) argsCk lookupR = some ck) ∧
    (∀ (frags? : Option (List (String × String))) (a1 a2 a3 : Bool),
      fragBoolFlag frags? "novariantcheck" = none →
      (resolveFlags frags? a1 a2 a3).1 = (if a1 then some true else none)) ∧
    (∀ (frags? : Option (List (String × String))) (a1 a2 a3 : Bool),
      fragBoolFlag frags? "noaudio" = none →
      (resolveFlags frags? a1 a2 a3).2.1 = (if a2 then some true else none)) ∧
    (∀ (frags? : Option (List (String × String))) (a1 a2 a3 : Bool),
      fragBoolFlag frags? "novideo" = none →
      (resolveFlags frags? a1 a2 a3).2.2 = (if a3 then some true else none)) ∧
    (validateArgs none none false false false = true) ∧
    (∀ {α : Type} (s : α) (variant : Nat),
      mainMuxOutcome "http://host/stream.mpd#noaudio=true&novideo=true"
        false false false variant s = (.plain s, true)) := by
  refine ⟨?_, ?_, ?_, ?_, ?_, ?_, ?_, rfl, ?_⟩
  · intro frags v a1 a2 a3 h
    simp [resolveFlags, fragBoolFlag, h, mergeFlag]
  · intro frags v a1 a2 a3 h
    simp [resolveFlags, fragBoolFlag, h, mergeFlag]
  · intro frags v a1 a2 a3 h
    simp [resolveFlags, fragBoolFlag, h, mergeFlag]
  · intro frags ck argsCk lookupR h
    simp [resolveClearkey, h]
  · intro frags? a1 a2 a3 h
    simp [resolveFlags, h, mergeFlag]
  · intro frags? a1 a2 a3 h
    simp [resolveFlags, h, mergeFlag]
  · intro frags? a1 a2 a3 h
    simp [resolveFlags, h, mergeFlag]
  · intro α s variant
    rfl

/-- Witness for C10: a fragment `noaudio=true` overrides an unset CLI
flag, a fragment clearkey wins over a CLI-configured lookup, and the
both-true fragment URL reaches the warn path on a concrete stream. -/
theorem mainFlags_c10_witness :
    (resolveFlags (some [("noaudio", "true")]) false false false).2.1 =
      some true ∧
    resolveClearkey (some [("clearkey", "a1b2")]) (some "keys.json")
      (some "other") = some "a1b2" ∧
    mainMuxOutcome "http://host/stream.mpd#noaudio=true&novideo=true"
      false false false 0 (7 : Nat) = (.plain 7, true) := by
  exact ⟨mainFlags_c10_fragment_precedence.2.1 [("noaudio", "true")] "true"
      false false false rfl,
    mainFlags_c10_fragment_precedence.2.2.2.1 [("clearkey", "a1b2")] "a1b2"
      (some "keys.json") (some "other") rfl,
    mainFlags_c10_fragment_precedence.2.2.2.2.2.2.2.2 7 0⟩
